import Mathlib

/-!
# Verification of the roj1 P2P tunnel core

A shallow embedding of the tunnel core of the `1ureka/roj1` repository:
the packet codec (`internal/protocol/codec.go`), the per-socket
reassembler (`Reassembler.Push` / `Reassembler.Drain`), the client-side
port-to-identifier mixer (`portToID`), the socket teardown path
(`Socket.cleanup`), the client drain loop (`Socket.writeLoop`), the
host-side dispatch handler (`RunAsHost` / `registerOrGet`), and the
outbound send traces of host- and client-side sockets.

Machine integers are embedded as `Nat` with explicit reduction modulo
`2^32` wherever the Go code performs 32-bit arithmetic that can wrap.
Byte strings are `List Nat`.  The Go standard-library min-heap
(`container/heap` over `packetHeap`, whose `Less` compares `SeqNum`)
is embedded through its documented contract — the root `buffer[0]` is a
minimum-`SeqNum` element, `heap.Push` inserts, `heap.Pop` removes the
root — as a list kept sorted by `SeqNum` with insertion preserving the
order; `buffer[0]` is the head of that list.
-/

namespace Roj1

/-- The modulus of Go `uint32` arithmetic, 2^32. -/
def U32 : Nat := 4294967296

/-- Go `protocol.TypeConnect` — new TCP connection request. -/
def TypeConnect : Nat := 0x01

/-- Go `protocol.TypeData` — TCP data payload. -/
def TypeData : Nat := 0x02

/-- Go `protocol.TypeClose` — connection close notification. -/
def TypeClose : Nat := 0x03

/-- Go `protocol.HeaderSize` — Type(1) + SocketID(4) + SeqNum(4). -/
def HeaderSize : Nat := 9

/-- Go `protocol.Packet`: a tunnel protocol packet. -/
structure Packet where
  type : Nat
  socketID : Nat
  seqNum : Nat
  payload : List Nat
deriving DecidableEq, Repr

/-- Go `binary.BigEndian.PutUint32`: the four big-endian bytes of a 32-bit word. -/
def putUint32BE (n : Nat) : List Nat :=
  [n / 16777216 % 256, n / 65536 % 256, n / 256 % 256, n % 256]

/-- Go `binary.BigEndian.Uint32`: read a 32-bit word from the first four bytes. -/
def getUint32BE : List Nat → Nat
  | b0 :: b1 :: b2 :: b3 :: _ => b0 * 16777216 + b1 * 65536 + b2 * 256 + b3
  | _ => 0

/-- Go `protocol.Encode`: serialize a packet — type byte, big-endian SocketID,
big-endian SeqNum, then the payload. -/
def Encode (pkt : Packet) : List Nat :=
  pkt.type :: (putUint32BE pkt.socketID ++ putUint32BE pkt.seqNum ++ pkt.payload)

/-- Go `protocol.Decode`: deserialize a byte slice into a packet; inputs shorter
than `HeaderSize` are rejected. -/
def Decode (data : List Nat) : Except String Packet :=
  if data.length < HeaderSize then
    Except.error "packet too short"
  else
    Except.ok
      { type := data.getD 0 0
        socketID := getUint32BE (data.drop 1)
        seqNum := getUint32BE (data.drop 5)
        payload := data.drop HeaderSize }

/-! ## Client-side identity mapping (`portToID`, adapter) -/

/-- The first XOR-shift stage of `portToID`: `v ^= v << 13` on a 32-bit word. -/
def mixStage1 (v : Nat) : Nat := (v ^^^ (v <<< 13)) % U32

/-- The second XOR-shift stage of `portToID`: `v ^= v >> 17`. -/
def mixStage2 (v : Nat) : Nat := v ^^^ (v >>> 17)

/-- The third XOR-shift stage of `portToID`: `v ^= v << 5` on a 32-bit word. -/
def mixStage3 (v : Nat) : Nat := (v ^^^ (v <<< 5)) % U32

/-- Go `portToID`: mix a 16-bit ephemeral port into a 32-bit socket identifier
with three XOR-shift stages, on 32-bit words. -/
def portToID (port : Nat) : Nat :=
  mixStage3 (mixStage2 (mixStage1 (port % 65536)))

/-- Inverse of the 32-bit stage `v = v XOR (v <<< 13)`. -/
def unmixShl13 (y : Nat) : Nat :=
  (y ^^^ (y <<< 13) ^^^ (y <<< 26)) % U32

/-- Inverse of the 32-bit stage `v = v XOR (v >>> 17)`. -/
def unmixShr17 (y : Nat) : Nat :=
  y ^^^ (y >>> 17)

/-- Inverse of the 32-bit stage `v = v XOR (v <<< 5)`. -/
def unmixShl5 (y : Nat) : Nat :=
  (y ^^^ (y <<< 5) ^^^ (y <<< 10) ^^^ (y <<< 15) ^^^ (y <<< 20) ^^^
    (y <<< 25) ^^^ (y <<< 30)) % U32

/-- Candidate left inverse of `portToID` on the 16-bit port space. -/
def portFromID (y : Nat) : Nat :=
  unmixShl13 (unmixShr17 (unmixShl5 y))

/-- The round trip through the mixer and its candidate inverse. -/
def mixRoundTrip (p : Nat) : Nat := portFromID (portToID p)

/-! ## Reassembler (`Reassembler.Push` / `Reassembler.Drain`) -/

/-- Go `maxBufferedBytes`: the per-socket reassembler buffer limit, 500 MiB. -/
def maxBufferedBytes : Nat := 500 * 1024 * 1024

/-- State of `adapter.Reassembler`.  `buffer` is the `packetHeap` min-heap,
embedded as a list sorted by `seqNum` with the root at the head;
`bufferedBytes` is a Go `int`; `notify` is the single-slot notification
channel (`true` = a signal is queued). -/
structure Reassembler where
  expectedSeq : Nat
  buffer : List Packet
  bufferedBytes : Int
  notify : Bool
deriving DecidableEq, Repr

/-- Go `NewReassembler`: expected sequence numbers start at 1. -/
def NewReassembler : Reassembler :=
  { expectedSeq := 1, buffer := [], bufferedBytes := 0, notify := false }

/-- Go `heap.Push` on `packetHeap` (whose `Less` is strict `<` on `SeqNum`):
insert keeping the list sorted by `seqNum`. -/
def heapPush (p : Packet) : List Packet → List Packet
  | [] => [p]
  | q :: qs => if p.seqNum < q.seqNum then p :: q :: qs else q :: heapPush p qs

/-- Go `Reassembler.Push`: discard packets whose `SeqNum` is below
`expectedSeq`; otherwise insert into the heap, grow `bufferedBytes` by the
payload length, fire the coalesced notification when the heap minimum equals
`expectedSeq`, and report overflow of the 500 MiB cap. -/
def Reassembler.Push (r : Reassembler) (pkt : Packet) : Reassembler × Bool :=
  if pkt.seqNum < r.expectedSeq then (r, false)
  else
    let buffer := heapPush pkt r.buffer
    let bufferedBytes := r.bufferedBytes + pkt.payload.length
    let overflow := decide (bufferedBytes > (maxBufferedBytes : Int))
    let notify :=
      if buffer.head?.map Packet.seqNum = some r.expectedSeq then true else r.notify
    ({ expectedSeq := r.expectedSeq, buffer := buffer,
       bufferedBytes := bufferedBytes, notify := notify }, overflow)

/-- The pop loop of `Reassembler.Drain`: with expected value `e`, pop the
heap while the root's `seqNum` equals the expected value, incrementing it
as a `uint32`.  Returns the popped packets, the final expected value and
the remaining heap. -/
def drainGo (e : Nat) : List Packet → List Packet × Nat × List Packet
  | [] => ([], e, [])
  | p :: rest =>
    if p.seqNum = e then
      let (res, e2, buf2) := drainGo ((e + 1) % U32) rest
      (p :: res, e2, buf2)
    else ([], e, p :: rest)

/-- Go `Reassembler.Drain`: pop all consecutive in-order packets starting at
`expectedSeq`, shrinking `bufferedBytes` by the popped payload sizes. -/
def Reassembler.Drain (r : Reassembler) : Reassembler × List Packet :=
  let (res, e2, buf2) := drainGo r.expectedSeq r.buffer
  ({ r with
      expectedSeq := e2
      buffer := buf2
      bufferedBytes := r.bufferedBytes - ((res.map (·.payload.length)).sum : Int) }, res)

/-- One interaction with the reassembler: a `Push` (from `pushLoop`) or a
`Drain` (from the drain loop). -/
inductive ROp where
  | push (p : Packet)
  | drain
deriving DecidableEq, Repr

/-- Run a sequence of reassembler interactions, concatenating the packet
lists returned by the `Drain` calls. -/
def runOps : List ROp → Reassembler → Reassembler × List Packet
  | [], r => (r, [])
  | ROp.push p :: ops, r => runOps ops (r.Push p).1
  | ROp.drain :: ops, r =>
    let (r1, l) := r.Drain
    let (r2, out) := runOps ops r1
    (r2, l ++ out)

/-- The `SeqNum`s the reassembler accepts into its buffer along a run
(pushes not discarded as below `expectedSeq`), in arrival order. -/
def acceptedSeqs : List ROp → Reassembler → List Nat
  | [], _ => []
  | ROp.push p :: ops, r =>
    if p.seqNum < r.expectedSeq then acceptedSeqs ops r
    else p.seqNum :: acceptedSeqs ops (r.Push p).1
  | ROp.drain :: ops, r => acceptedSeqs ops r.Drain.1

/-- The packets pushed along a sequence of reassembler interactions, in
arrival order. -/
def pushedPackets (ops : List ROp) : List Packet :=
  ops.filterMap fun op =>
    match op with
    | ROp.push p => some p
    | ROp.drain => none

/-- A concrete interaction sequence for the reassembler: the duplicate of
SeqNum 2 arrives before SeqNum 2 is deliverable. -/
def c1CounterOps : List ROp :=
  [ROp.push { type := 2, socketID := 7, seqNum := 2, payload := [] },
    ROp.push { type := 2, socketID := 7, seqNum := 2, payload := [9] },
    ROp.push { type := 2, socketID := 7, seqNum := 1, payload := [] },
    ROp.push { type := 2, socketID := 7, seqNum := 3, payload := [] },
    ROp.drain, ROp.drain]

/-- Run invariant tying a reassembler state to the packets delivered so
far (`out`) and the `SeqNum`s accepted so far (`A`). -/
structure ReasmInv (N : Nat) (r : Reassembler) (out : List Packet)
    (A : List Nat) : Prop where
  outSeqs : out.map Packet.seqNum = List.range' 1 out.length
  expSeq : r.expectedSeq = out.length + 1
  outLen : out.length ≤ N
  sorted : r.buffer.Pairwise (fun a b => a.seqNum ≤ b.seqNum)
  perm : A.Perm (out.map Packet.seqNum ++ r.buffer.map Packet.seqNum)
  bounds : ∀ s ∈ A, 1 ≤ s ∧ s ≤ N

/-- Outcome of one iteration of `Socket.pushLoop` on an inbox packet. -/
inductive LoopOutcome where
  | continueRun (r : Reassembler)
  | fatalOverflow (r : Reassembler)
deriving DecidableEq, Repr

/-- One iteration of `Socket.pushLoop`: push the packet; when `Push`
reports overflow the loop exits (a fatal condition — the deferred
`cleanup` tears the socket down), otherwise it continues. -/
def pushLoopStep (r : Reassembler) (pkt : Packet) : LoopOutcome :=
  let (r1, overflow) := r.Push pkt
  if overflow then LoopOutcome.fatalOverflow r1 else LoopOutcome.continueRun r1

/-! ## Socket teardown (`Socket.cleanup`) -/

/-- The side effects of `Socket.cleanup`, in source order. -/
inductive TeardownAction where
  | cancelToken
  | closeTcp
  | sendClose
deriving DecidableEq, Repr

/-- The teardown-relevant socket state: the `sync.Once` guard
(`closeOnce`) and whether a local TCP connection is present
(`tcpConn != nil`). -/
structure CleanupState where
  closeOnceDone : Bool
  hasTcpConn : Bool
deriving DecidableEq, Repr

/-- Go `Socket.cleanup`: behind `closeOnce`, fire the cancellation token,
close the local TCP connection if present, and submit one CLOSE to the
sender.  `sync.Once` serializes racing callers, so one invocation is one
atomic step. -/
def cleanup (s : CleanupState) : CleanupState × List TeardownAction :=
  if s.closeOnceDone then (s, [])
  else
    ({ s with closeOnceDone := true },
      TeardownAction.cancelToken ::
        ((if s.hasTcpConn then [TeardownAction.closeTcp] else []) ++
          [TeardownAction.sendClose]))

/-- Repeated (`n`) invocations of `cleanup` on one socket (one per loop that reaches a
terminal condition), with the emitted actions concatenated in order. -/
def runCleanups (s : CleanupState) : Nat → CleanupState × List TeardownAction
  | 0 => (s, [])
  | n + 1 =>
    let (s1, acts) := cleanup s
    let (s2, rest) := runCleanups s1 n
    (s2, acts ++ rest)

/-! ## Client drain loop (`Socket.writeLoop`) -/

/-- Observable steps of the client drain loop body. -/
inductive WriteEvent where
  | wroteTcp (payload : List Nat)
  | writeFailed (payload : List Nat)
  | didCleanup
deriving DecidableEq, Repr

/-- The body of `Socket.writeLoop` processing one drained batch.
`writeOk` models the local TCP connection's `Write` (`true` = success).
DATA is written to the TCP connection (a write error exits the loop,
running the deferred `cleanup`); CLOSE exits the loop (deferred
`cleanup`); any other type matches no `switch` case and the loop moves to
the next drained packet. -/
def writeLoopDrain (writeOk : List Nat → Bool) : List Packet → List WriteEvent
  | [] => []
  | d :: rest =>
    if d.type = TypeData then
      if writeOk d.payload then
        WriteEvent.wroteTcp d.payload :: writeLoopDrain writeOk rest
      else
        [WriteEvent.writeFailed d.payload, WriteEvent.didCleanup]
    else if d.type = TypeClose then
      [WriteEvent.didCleanup]
    else
      writeLoopDrain writeOk rest

/-! ## Host-side dispatch (`RunAsHost`, `registerOrGet`, `deliver`) -/

/-- Capacity of a socket's inbox channel. -/
def inboxCap : Nat := 1024

/-- The dispatch-relevant state of one `Socket`: its inbox (a bounded FIFO
channel) and whether its host lifecycle goroutine has been started. -/
structure SocketModel where
  id : Nat
  inbox : List Packet
  started : Bool
deriving DecidableEq, Repr

/-- The adapter's route table, `map[uint32]*Socket`. -/
structure AdapterState where
  routes : Nat → Option SocketModel

/-- Observable events of the host-mode `OnPacket` handler. -/
inductive HostEvent where
  | delivered (id : Nat) (pkt : Packet)
  | droppedInboxFull (id : Nat)
  | socketCreated (id : Nat)
  | lifecycleStarted (id : Nat)
  | deliverFailed (id : Nat)
deriving DecidableEq, Repr

/-- Point update of the route table. -/
def AdapterState.setRoute (st : AdapterState) (id : Nat) (s : SocketModel) :
    AdapterState :=
  { routes := fun j => if j = id then some s else st.routes j }

/-- Go `adapter.deliver`: look up the packet's `SocketID`; when a route
exists, append to its inbox if there is room (the non-blocking channel
send), dropping when full.  Returns whether a route was found. -/
def deliver (st : AdapterState) (pkt : Packet) :
    AdapterState × Bool × List HostEvent :=
  match st.routes pkt.socketID with
  | none => (st, false, [])
  | some s =>
    if s.inbox.length < inboxCap then
      (st.setRoute pkt.socketID { s with inbox := s.inbox ++ [pkt] }, true,
        [HostEvent.delivered pkt.socketID pkt])
    else
      (st, true, [HostEvent.droppedInboxFull pkt.socketID])

/-- Go `adapter.registerOrGet`: return the existing socket, or create a fresh
one (empty inbox, lifecycle not yet started) and insert it. -/
def registerOrGet (st : AdapterState) (id : Nat) :
    AdapterState × SocketModel × Bool :=
  match st.routes id with
  | some s => (st, s, false)
  | none =>
    let s : SocketModel := { id := id, inbox := [], started := false }
    (st.setRoute id s, s, true)

/-- Mark the socket's host lifecycle as started (`go s.runAsHost`). -/
def startLifecycle (st : AdapterState) (id : Nat) : AdapterState :=
  match st.routes id with
  | none => st
  | some s => st.setRoute id { s with started := true }

/-- The host-mode `OnPacket` handler of `RunAsHost`: deliver if routed;
otherwise drop a stale CLOSE; otherwise `registerOrGet`, start the host
lifecycle for a newly created socket, and deliver the triggering packet. -/
def onPacketHost (st : AdapterState) (pkt : Packet) :
    AdapterState × List HostEvent :=
  let (st1, ok, ev1) := deliver st pkt
  if ok then (st1, ev1)
  else if pkt.type = TypeClose then (st, [])
  else
    let (st2, _, created) := registerOrGet st1 pkt.socketID
    let (st3, ev2) :=
      if created then
        (startLifecycle st2 pkt.socketID,
          [HostEvent.socketCreated pkt.socketID,
            HostEvent.lifecycleStarted pkt.socketID])
      else (st2, [])
    let (st4, ok2, ev3) := deliver st3 pkt
    (st4, ev2 ++ ev3 ++ (if ok2 then [] else [HostEvent.deliverFailed pkt.socketID]))

/-- Handle a sequence of inbound packets (the transport invokes the
handler serially for our purposes; `registerOrGet` holds the mutex). -/
def processPackets (st : AdapterState) : List Packet → AdapterState × List HostEvent
  | [] => (st, [])
  | p :: ps =>
    let (st1, ev1) := onPacketHost st p
    let (st2, ev2) := processPackets st1 ps
    (st2, ev1 ++ ev2)

/-! ## Outbound send traces (`runAsHost` / `runAsClient`) -/

/-- A call into the shared transport's send API. -/
inductive SendEvent where
  | sendConnect (socketID seqNum : Nat)
  | sendData (socketID seqNum : Nat) (payload : List Nat)
  | sendClose (socketID seqNum : Nat)
deriving DecidableEq, Repr

/-- The `SeqNum` carried by a send. -/
def SendEvent.seq : SendEvent → Nat
  | SendEvent.sendConnect _ q => q
  | SendEvent.sendData _ q _ => q
  | SendEvent.sendClose _ q => q

/-- Whether the send is a CONNECT. -/
def SendEvent.isConnect : SendEvent → Bool
  | SendEvent.sendConnect _ _ => true
  | _ => false

/-- Whether the send is a DATA. -/
def SendEvent.isData : SendEvent → Bool
  | SendEvent.sendData _ _ _ => true
  | _ => false

/-- Whether the send is a CLOSE. -/
def SendEvent.isCloseEv : SendEvent → Bool
  | SendEvent.sendClose _ _ => true
  | _ => false

/-- The sends a socket performs after its loops are launched, under an
arbitrary interleaving `sched` of its two sending call sites (`true` = the
next `readLoop` step, which frames the next TCP chunk as DATA with the
next `SeqGen` value; `false` = a loop hits a terminal condition and runs
`cleanup`, which sends CLOSE once).  `ctr` is the `SeqGen` counter
(`Next()` returns the incremented `uint32` value); `closed` is the
`closeOnce` guard.  The deferred `cleanup` of the run method fires when
the schedule ends. -/
def socketSends (id : Nat) : List Bool → List (List Nat) → Nat → Bool → List SendEvent
  | [], _, ctr, closed =>
    if closed then [] else [SendEvent.sendClose id ((ctr + 1) % U32)]
  | true :: sched, chunks, ctr, closed =>
    match chunks with
    | [] => socketSends id sched [] ctr closed
    | c :: cs =>
      SendEvent.sendData id ((ctr + 1) % U32) c ::
        socketSends id sched cs ((ctr + 1) % U32) closed
  | false :: sched, chunks, ctr, closed =>
    if closed then socketSends id sched chunks ctr closed
    else
      SendEvent.sendClose id ((ctr + 1) % U32) ::
        socketSends id sched chunks ((ctr + 1) % U32) true

/-- All sends of a host-side socket (`runAsHost`): only the loops send —
`readLoop` DATA frames and the single `cleanup` CLOSE.  The `SeqGen`
starts at 0. -/
def hostSocketSends (id : Nat) (sched : List Bool) (chunks : List (List Nat)) :
    List SendEvent :=
  socketSends id sched chunks 0 false

/-- All sends of a client-side socket (`runAsClient`): `SendConnect` with
the first `SeqGen` value before any loop is launched, then the loops. -/
def clientSocketSends (id : Nat) (sched : List Bool) (chunks : List (List Nat)) :
    List SendEvent :=
  SendEvent.sendConnect id 1 :: socketSends id sched chunks 1 false

/-! ## Theorems: packet codec -/

theorem getUint32BE_putUint32BE (n : Nat) (rest : List Nat) (h : n < U32) :
    getUint32BE (putUint32BE n ++ rest) = n := by
  simp only [putUint32BE, List.cons_append, List.nil_append, getUint32BE]
  simp only [U32] at h
  omega

/-- C6: for every packet with Type in {CONNECT, DATA, CLOSE}, any 32-bit
SocketID and SeqNum, and any payload, `Decode (Encode pkt)` succeeds and
returns a packet equal to `pkt`. -/
theorem c6_codec_roundtrip (t sid sq : Nat) (payload : List Nat)
    (ht : t = TypeConnect ∨ t = TypeData ∨ t = TypeClose)
    (hsid : sid < U32) (hsq : sq < U32) :
    Decode (Encode { type := t, socketID := sid, seqNum := sq, payload := payload })
      = Except.ok { type := t, socketID := sid, seqNum := sq, payload := payload } := by
  unfold Decode
  rw [if_neg (by simp [Encode, putUint32BE, HeaderSize])]
  refine congrArg Except.ok ?_
  have hd1 : (Encode { type := t, socketID := sid, seqNum := sq, payload := payload }).drop 1 = putUint32BE sid ++ (putUint32BE sq ++ payload) := rfl
  have hd5 : (Encode { type := t, socketID := sid, seqNum := sq, payload := payload }).drop 5 = putUint32BE sq ++ payload := rfl
  have hd9 : (Encode { type := t, socketID := sid, seqNum := sq, payload := payload }).drop HeaderSize = payload := rfl
  rw [hd1, hd5, hd9, getUint32BE_putUint32BE sid _ hsid,
    getUint32BE_putUint32BE sq payload hsq]
  rfl

/-- Witness for C6 at a concrete packet. -/
theorem c6_codec_roundtrip_witness :
    Decode (Encode { type := 2, socketID := 5, seqNum := 7, payload := [1, 2, 3] })
      = Except.ok { type := 2, socketID := 5, seqNum := 7, payload := [1, 2, 3] } :=
  c6_codec_roundtrip 2 5 7 [1, 2, 3] (Or.inr (Or.inl rfl)) (by decide) (by decide)

/-- C7: `Encode` produces `9 + |payload|` bytes: the type byte, the four
big-endian bytes of `SocketID`, the four big-endian bytes of `SeqNum`, then
the payload unchanged; the wire types are CONNECT `0x01`, DATA `0x02`,
CLOSE `0x03`. -/
theorem c7_encode_layout (pkt : Packet) :
    (Encode pkt).length = HeaderSize + pkt.payload.length ∧
    (Encode pkt).getD 0 0 = pkt.type ∧
    (Encode pkt).getD 1 0 = pkt.socketID / 16777216 % 256 ∧
    (Encode pkt).getD 2 0 = pkt.socketID / 65536 % 256 ∧
    (Encode pkt).getD 3 0 = pkt.socketID / 256 % 256 ∧
    (Encode pkt).getD 4 0 = pkt.socketID % 256 ∧
    (Encode pkt).getD 5 0 = pkt.seqNum / 16777216 % 256 ∧
    (Encode pkt).getD 6 0 = pkt.seqNum / 65536 % 256 ∧
    (Encode pkt).getD 7 0 = pkt.seqNum / 256 % 256 ∧
    (Encode pkt).getD 8 0 = pkt.seqNum % 256 ∧
    (Encode pkt).drop HeaderSize = pkt.payload ∧
    TypeConnect = 0x01 ∧ TypeData = 0x02 ∧ TypeClose = 0x03 := by
  refine ⟨?_, rfl, rfl, rfl, rfl, rfl, rfl, rfl, rfl, rfl, rfl, rfl, rfl, rfl⟩
  simp [Encode, putUint32BE, HeaderSize]
  omega

/-- C8: `Decode` fails exactly on inputs shorter than 9 bytes; any input of
at least 9 bytes decodes (whatever its type byte), and a 9-byte input
yields an empty payload. -/
theorem c8_decode_short (data : List Nat) :
    ((∃ e, Decode data = Except.error e) ↔ data.length < HeaderSize) ∧
    ((∃ p, Decode data = Except.ok p) ↔ HeaderSize ≤ data.length) ∧
    (data.length = HeaderSize →
      Decode data = Except.ok
        { type := data.getD 0 0
          socketID := getUint32BE (data.drop 1)
          seqNum := getUint32BE (data.drop 5)
          payload := [] }) := by
  refine ⟨?_, ?_, ?_⟩
  · simp only [Decode, HeaderSize]
    split
    next h => exact iff_of_true ⟨_, rfl⟩ h
    next h =>
      constructor
      · rintro ⟨e, he⟩
        exact Except.noConfusion he
      · intro hlt
        exact absurd hlt h
  · simp only [Decode, HeaderSize]
    split
    next h =>
      constructor
      · rintro ⟨p, hp⟩
        exact Except.noConfusion hp
      · intro hge
        exact absurd hge (by omega)
    next h => exact iff_of_true ⟨_, rfl⟩ (by omega)
  · intro h
    have hd : data.drop 9 = [] := by
      have h2 := List.drop_length data
      rw [h] at h2
      simpa [HeaderSize] using h2
    simp only [Decode, HeaderSize, h]
    rw [if_neg (by omega), hd]

/-- Witness for C8: a 9-byte input decodes to an empty-payload packet. -/
theorem c8_decode_short_witness :
    Decode [3, 0, 0, 0, 9, 0, 0, 0, 4] = Except.ok
      { type := 3, socketID := 9, seqNum := 4, payload := [] } := by
  have h := (c8_decode_short [3, 0, 0, 0, 9, 0, 0, 0, 4]).2.2 rfl
  exact h.trans rfl

/-! ## Theorems: client-side identity mapping -/

theorem U32_eq_pow : U32 = 2 ^ 32 := by norm_num [U32]

theorem shiftLeft_xor_distrib (a b n : Nat) :
    (a ^^^ b) <<< n = a <<< n ^^^ b <<< n := by
  refine Nat.eq_of_testBit_eq fun i => ?_
  simp only [Nat.testBit_shiftLeft, Nat.testBit_xor]
  rw [Bool.and_xor_distrib_left]

theorem shiftRight_xor_distrib (a b n : Nat) :
    (a ^^^ b) >>> n = a >>> n ^^^ b >>> n := by
  refine Nat.eq_of_testBit_eq fun i => ?_
  simp

theorem mod_two_pow_xor_distrib (a b k : Nat) :
    (a ^^^ b) % 2 ^ k = a % 2 ^ k ^^^ b % 2 ^ k := by
  refine Nat.eq_of_testBit_eq fun i => ?_
  simp only [Nat.testBit_mod_two_pow, Nat.testBit_xor]
  rw [Bool.and_xor_distrib_left]

theorem xor_lcomm (a b c : Nat) : a ^^^ (b ^^^ c) = b ^^^ (a ^^^ c) := by
  rw [← Nat.xor_assoc, Nat.xor_comm a b, Nat.xor_assoc]

theorem mixStage1_xor (a b : Nat) :
    mixStage1 (a ^^^ b) = mixStage1 a ^^^ mixStage1 b := by
  unfold mixStage1
  simp only [U32_eq_pow, shiftLeft_xor_distrib]
  rw [← mod_two_pow_xor_distrib]
  congr 1
  simp [Nat.xor_assoc, Nat.xor_comm, xor_lcomm]

theorem mixStage2_xor (a b : Nat) :
    mixStage2 (a ^^^ b) = mixStage2 a ^^^ mixStage2 b := by
  unfold mixStage2
  rw [shiftRight_xor_distrib]
  simp [Nat.xor_assoc, Nat.xor_comm, xor_lcomm]

theorem mixStage3_xor (a b : Nat) :
    mixStage3 (a ^^^ b) = mixStage3 a ^^^ mixStage3 b := by
  unfold mixStage3
  simp only [U32_eq_pow, shiftLeft_xor_distrib]
  rw [← mod_two_pow_xor_distrib]
  congr 1
  simp [Nat.xor_assoc, Nat.xor_comm, xor_lcomm]

theorem unmixShl13_xor (a b : Nat) :
    unmixShl13 (a ^^^ b) = unmixShl13 a ^^^ unmixShl13 b := by
  unfold unmixShl13
  simp only [U32_eq_pow, shiftLeft_xor_distrib]
  rw [← mod_two_pow_xor_distrib]
  congr 1
  simp [Nat.xor_assoc, Nat.xor_comm, xor_lcomm]

theorem unmixShr17_xor (a b : Nat) :
    unmixShr17 (a ^^^ b) = unmixShr17 a ^^^ unmixShr17 b := by
  unfold unmixShr17
  rw [shiftRight_xor_distrib]
  simp [Nat.xor_assoc, Nat.xor_comm, xor_lcomm]

theorem unmixShl5_xor (a b : Nat) :
    unmixShl5 (a ^^^ b) = unmixShl5 a ^^^ unmixShl5 b := by
  unfold unmixShl5
  simp only [U32_eq_pow, shiftLeft_xor_distrib]
  rw [← mod_two_pow_xor_distrib]
  congr 1
  simp [Nat.xor_assoc, Nat.xor_comm, xor_lcomm]

theorem mixRoundTrip_xor (a b : Nat) :
    mixRoundTrip (a ^^^ b) = mixRoundTrip a ^^^ mixRoundTrip b := by
  unfold mixRoundTrip portToID portFromID
  rw [show (65536 : Nat) = 2 ^ 16 by norm_num, mod_two_pow_xor_distrib,
    mixStage1_xor, mixStage2_xor, mixStage3_xor, unmixShl5_xor, unmixShr17_xor,
    unmixShl13_xor]

theorem mixRoundTrip_basis : ∀ j, j < 16 → mixRoundTrip (2 ^ j) = 2 ^ j := by decide

theorem two_pow_add_eq_xor (n r : Nat) (h : r < 2 ^ n) :
    2 ^ n + r = 2 ^ n ^^^ r := by
  refine Nat.eq_of_testBit_eq fun i => ?_
  rcases Nat.lt_trichotomy i n with hi | hi | hi
  · rw [Nat.testBit_two_pow_add_gt hi, Nat.testBit_xor,
      Nat.testBit_two_pow_of_ne (by omega), Bool.false_xor]
  · subst hi
    rw [Nat.testBit_two_pow_add_eq, Nat.testBit_xor, Nat.testBit_two_pow_self,
      Nat.testBit_lt_two_pow h]
    rfl
  · have hn : (2 : Nat) ^ (n + 1) ≤ 2 ^ i := Nat.pow_le_pow_right (by omega) (by omega)
    have hs : (2 : Nat) ^ (n + 1) = 2 ^ n * 2 := by rw [Nat.pow_succ]
    have h1 : 2 ^ n + r < 2 ^ i := by omega
    have h2 : r < 2 ^ i := by omega
    rw [Nat.testBit_lt_two_pow h1, Nat.testBit_xor,
      Nat.testBit_two_pow_of_ne (by omega), Nat.testBit_lt_two_pow h2]
    rfl

theorem mixRoundTrip_id (n : Nat) : n ≤ 16 → ∀ p, p < 2 ^ n → mixRoundTrip p = p := by
  induction n with
  | zero =>
    intro _ p hp
    have hp0 : p = 0 := by simpa using Nat.lt_one_iff.mp (by simpa using hp)
    subst hp0
    decide
  | succ n ih =>
    intro h p hp
    by_cases hsmall : p < 2 ^ n
    · exact ih (by omega) p hsmall
    · have hs : (2 : Nat) ^ (n + 1) = 2 ^ n * 2 := by rw [Nat.pow_succ]
      have hr : p - 2 ^ n < 2 ^ n := by omega
      have hx : p = 2 ^ n ^^^ (p - 2 ^ n) := by
        rw [← two_pow_add_eq_xor n _ hr]
        omega
      rw [hx, mixRoundTrip_xor, mixRoundTrip_basis n (by omega),
        ih (by omega) _ hr, ← two_pow_add_eq_xor n _ hr]

/-- C9: the XOR-shift mixer `portToID` is injective on the 16-bit port
space. -/
theorem c9_portToID_injective (p q : Nat) (hp : p < 65536) (hq : q < 65536)
    (hne : p ≠ q) : portToID p ≠ portToID q := by
  intro h
  have h16 : (2 : Nat) ^ 16 = 65536 := by norm_num
  have h1 : mixRoundTrip p = p := mixRoundTrip_id 16 le_rfl p (by omega)
  have h2 : mixRoundTrip q = q := mixRoundTrip_id 16 le_rfl q (by omega)
  apply hne
  rw [← h1, ← h2]
  unfold mixRoundTrip
  rw [h]

/-- Witness for C9 at the concrete ports 1 and 2. -/
theorem c9_portToID_injective_witness : portToID 1 ≠ portToID 2 :=
  c9_portToID_injective 1 2 (by decide) (by decide) (by decide)

/-! ## Theorems: socket teardown -/

theorem runCleanups_done (tcp : Bool) (n : Nat) :
    runCleanups { closeOnceDone := true, hasTcpConn := tcp } n
      = ({ closeOnceDone := true, hasTcpConn := tcp }, []) := by
  induction n with
  | zero => rfl
  | succ n ih => simp [runCleanups, cleanup, ih]

/-- C2: however many of the socket's loops reach a terminal condition and
invoke `cleanup`, the teardown side effects happen at most once, in the
order: fire the cancellation token, close the local TCP connection if
present, submit exactly one CLOSE. -/
theorem c2_cleanup_once (hasTcp : Bool) (n : Nat) :
    (runCleanups { closeOnceDone := false, hasTcpConn := hasTcp } n).2
      = (if n = 0 then []
         else TeardownAction.cancelToken ::
           ((if hasTcp then [TeardownAction.closeTcp] else []) ++
             [TeardownAction.sendClose])) ∧
    (runCleanups { closeOnceDone := false, hasTcpConn := hasTcp } n).2.count
        TeardownAction.cancelToken ≤ 1 ∧
    (runCleanups { closeOnceDone := false, hasTcpConn := hasTcp } n).2.count
        TeardownAction.closeTcp ≤ 1 ∧
    (runCleanups { closeOnceDone := false, hasTcpConn := hasTcp } n).2.count
        TeardownAction.sendClose ≤ 1 := by
  have hmain : (runCleanups { closeOnceDone := false, hasTcpConn := hasTcp } n).2
      = (if n = 0 then []
         else TeardownAction.cancelToken ::
           ((if hasTcp then [TeardownAction.closeTcp] else []) ++
             [TeardownAction.sendClose])) := by
    cases n with
    | zero => rfl
    | succ n => simp [runCleanups, cleanup, runCleanups_done]
  refine ⟨hmain, ?_, ?_, ?_⟩ <;>
    rw [hmain] <;> cases n <;> cases hasTcp <;> simp

/-! ## Theorems: client drain loop -/

/-- C5 is refuted: a CONNECT packet drained on the client does *not*
trigger cleanup — no `switch` case matches, the packet is skipped and the
loop continues with the remaining drained packets. -/
theorem c5_counterexample :
    writeLoopDrain (fun _ => true)
        [{ type := TypeConnect, socketID := 7, seqNum := 1, payload := [] },
          { type := TypeData, socketID := 7, seqNum := 2, payload := [5] }]
      = [WriteEvent.wroteTcp [5]] ∧
    WriteEvent.didCleanup ∉ writeLoopDrain (fun _ => true)
        [{ type := TypeConnect, socketID := 7, seqNum := 1, payload := [] },
          { type := TypeData, socketID := 7, seqNum := 2, payload := [5] }] := by
  decide

/-- C5 (amended): in the client drain loop a DATA packet's payload is
written to the local TCP connection (a failed write exits the loop into
cleanup), a CLOSE packet triggers cleanup, and a CONNECT packet (not
expected on the client) is silently ignored — the loop continues. -/
theorem c5_writeLoop_amended (wOk : List Nat → Bool) (d : Packet)
    (rest : List Packet) :
    (d.type = TypeData → wOk d.payload = true →
      writeLoopDrain wOk (d :: rest)
        = WriteEvent.wroteTcp d.payload :: writeLoopDrain wOk rest) ∧
    (d.type = TypeData → wOk d.payload = false →
      writeLoopDrain wOk (d :: rest)
        = [WriteEvent.writeFailed d.payload, WriteEvent.didCleanup]) ∧
    (d.type = TypeClose →
      writeLoopDrain wOk (d :: rest) = [WriteEvent.didCleanup]) ∧
    (d.type = TypeConnect →
      writeLoopDrain wOk (d :: rest) = writeLoopDrain wOk rest) := by
  refine ⟨?_, ?_, ?_, ?_⟩
  · intro h1 h2
    simp [writeLoopDrain, h1, h2]
  · intro h1 h2
    simp [writeLoopDrain, h1, h2]
  · intro h1
    simp [writeLoopDrain, h1, TypeClose, TypeData]
  · intro h1
    simp [writeLoopDrain, h1, TypeConnect, TypeData, TypeClose]

/-- Witness for the amended C5 at concrete packets. -/
theorem c5_writeLoop_amended_witness :
    writeLoopDrain (fun _ => true)
        [{ type := TypeClose, socketID := 1, seqNum := 1, payload := [] }]
      = [WriteEvent.didCleanup] :=
  (c5_writeLoop_amended (fun _ => true)
    { type := TypeClose, socketID := 1, seqNum := 1, payload := [] } []).2.2.1 rfl

/-! ## Theorems: outbound send traces -/

@[simp] theorem isConnect_sendConnect (s q : Nat) :
    (SendEvent.sendConnect s q).isConnect = true := rfl

@[simp] theorem isConnect_sendData (s q : Nat) (p : List Nat) :
    (SendEvent.sendData s q p).isConnect = false := rfl

@[simp] theorem isConnect_sendClose (s q : Nat) :
    (SendEvent.sendClose s q).isConnect = false := rfl

@[simp] theorem isCloseEv_sendConnect (s q : Nat) :
    (SendEvent.sendConnect s q).isCloseEv = false := rfl

@[simp] theorem isCloseEv_sendData (s q : Nat) (p : List Nat) :
    (SendEvent.sendData s q p).isCloseEv = false := rfl

@[simp] theorem isCloseEv_sendClose (s q : Nat) :
    (SendEvent.sendClose s q).isCloseEv = true := rfl

theorem socketSends_no_connect (id : Nat) (sched : List Bool) :
    ∀ chunks ctr closed, ∀ e ∈ socketSends id sched chunks ctr closed,
      e.isConnect = false := by
  induction sched with
  | nil =>
    intro chunks ctr closed e he
    cases closed with
    | true => simp [socketSends] at he
    | false =>
      simp [socketSends] at he
      subst he
      rfl
  | cons b sched ih =>
    intro chunks ctr closed e he
    cases b with
    | true =>
      cases chunks with
      | nil => exact ih [] ctr closed e (by simpa [socketSends] using he)
      | cons c cs =>
        simp only [socketSends, List.mem_cons] at he
        rcases he with h | h
        · subst h
          rfl
        · exact ih cs _ closed e h
    | false =>
      cases closed with
      | true => exact ih chunks ctr true e (by simpa [socketSends] using he)
      | false =>
        simp [socketSends] at he
        rcases he with h | h
        · subst h
          rfl
        · exact ih chunks _ true e h

theorem socketSends_close_count (id : Nat) (sched : List Bool) :
    ∀ chunks ctr closed,
      (socketSends id sched chunks ctr closed).countP (·.isCloseEv)
        = if closed then 0 else 1 := by
  induction sched with
  | nil =>
    intro chunks ctr closed
    cases closed <;> simp [socketSends]
  | cons b sched ih =>
    intro chunks ctr closed
    cases b with
    | true =>
      cases chunks with
      | nil => simpa [socketSends] using ih [] ctr closed
      | cons c cs =>
        simp [socketSends, List.countP_cons, ih cs]
    | false =>
      cases closed with
      | true => simpa [socketSends] using ih chunks ctr true
      | false => simp [socketSends, List.countP_cons, ih chunks]

theorem socketSends_head_seq (id : Nat) (sched : List Bool) :
    ∀ chunks ctr,
      (socketSends id sched chunks ctr false).head?.map SendEvent.seq
        = some ((ctr + 1) % U32) := by
  induction sched with
  | nil =>
    intro chunks ctr
    simp [socketSends, SendEvent.seq]
  | cons b sched ih =>
    intro chunks ctr
    cases b with
    | true =>
      cases chunks with
      | nil => simpa [socketSends] using ih [] ctr
      | cons c cs => simp [socketSends, SendEvent.seq]
    | false => simp [socketSends, SendEvent.seq]

theorem sendEvent_shape (e : SendEvent) (h : e.isConnect = false) :
    e.isData = true ∨ e.isCloseEv = true := by
  cases e with
  | sendConnect s q => exact absurd h (by simp [SendEvent.isConnect])
  | sendData s q p => exact Or.inl rfl
  | sendClose s q => exact Or.inr rfl

/-- C10: a host-side socket never sends CONNECT — its sends are the
`readLoop` DATA frames and the single `cleanup` CLOSE, and its first send
carries SeqNum 1 (so the host-to-client sub-stream begins at SeqNum 1 with
a DATA or CLOSE packet); a client-side socket sends CONNECT exactly once,
as its very first packet, with SeqNum 1. -/
theorem c10_connect_discipline (id : Nat) (sched : List Bool)
    (chunks : List (List Nat)) :
    (∀ e ∈ hostSocketSends id sched chunks,
      e.isConnect = false ∧ (e.isData = true ∨ e.isCloseEv = true)) ∧
    (hostSocketSends id sched chunks).countP (·.isCloseEv) = 1 ∧
    (hostSocketSends id sched chunks).head?.map SendEvent.seq = some 1 ∧
    (clientSocketSends id sched chunks).head? = some (SendEvent.sendConnect id 1) ∧
    (∀ e ∈ (clientSocketSends id sched chunks).tail, e.isConnect = false) ∧
    (clientSocketSends id sched chunks).countP (·.isConnect) = 1 := by
  refine ⟨?_, ?_, ?_, rfl, ?_, ?_⟩
  · intro e he
    have h1 := socketSends_no_connect id sched chunks 0 false e he
    exact ⟨h1, sendEvent_shape e h1⟩
  · exact socketSends_close_count id sched chunks 0 false
  · have h := socketSends_head_seq id sched chunks 0
    simpa [hostSocketSends, U32] using h
  · intro e he
    exact socketSends_no_connect id sched chunks 1 false e (by simpa using he)
  · have hc : ∀ e ∈ socketSends id sched chunks 1 false, e.isConnect = false :=
      socketSends_no_connect id sched chunks 1 false
    simp only [clientSocketSends, List.countP_cons]
    rw [List.countP_eq_zero.mpr ?_]
    · rfl
    · intro e he
      simpa using hc e he

/-- Witness for C10 at a concrete socket trace. -/
theorem c10_connect_discipline_witness :
    SendEvent.isConnect (SendEvent.sendClose 5 1) = false := by
  have h := (c10_connect_discipline 5 [] []).1 (SendEvent.sendClose 5 1)
    (by decide)
  exact h.1

/-! ## Theorems: `Reassembler.Push` and its caller -/

/-- C3: a packet whose `SeqNum` is below `expectedSeq` leaves the
reassembler unchanged and `Push` returns not-overflow; otherwise the
packet is inserted into the heap, `bufferedBytes` grows by the payload
length, and `Push` returns `true` exactly when `bufferedBytes` then
exceeds the 500 MiB cap — which makes `pushLoop` exit into cleanup. -/
theorem c3_push_overflow (r : Reassembler) (pkt : Packet) :
    (pkt.seqNum < r.expectedSeq → r.Push pkt = (r, false)) ∧
    (¬ pkt.seqNum < r.expectedSeq →
      (r.Push pkt).1.buffer = heapPush pkt r.buffer ∧
      (r.Push pkt).1.expectedSeq = r.expectedSeq ∧
      (r.Push pkt).1.bufferedBytes = r.bufferedBytes + pkt.payload.length ∧
      ((r.Push pkt).2 = true ↔
        r.bufferedBytes + pkt.payload.length > (maxBufferedBytes : Int))) ∧
    (pushLoopStep r pkt = LoopOutcome.fatalOverflow (r.Push pkt).1 ↔
      (r.Push pkt).2 = true) ∧
    (pushLoopStep r pkt = LoopOutcome.continueRun (r.Push pkt).1 ↔
      (r.Push pkt).2 = false) := by
  refine ⟨?_, ?_, ?_, ?_⟩
  · intro h
    simp [Reassembler.Push, h]
  · intro h
    simp [Reassembler.Push, h]
  · cases hov : (r.Push pkt).2 <;> simp [pushLoopStep, hov]
  · cases hov : (r.Push pkt).2 <;> simp [pushLoopStep, hov]

/-- Witness for C3: a late packet is discarded unchanged. -/
theorem c3_push_overflow_witness :
    NewReassembler.Push { type := 2, socketID := 1, seqNum := 0, payload := [] }
      = (NewReassembler, false) :=
  (c3_push_overflow NewReassembler
    { type := 2, socketID := 1, seqNum := 0, payload := [] }).1 (by decide)

/-! ## Theorems: host-side dispatch -/

theorem setRoute_isSome (st : AdapterState) (id : Nat) (s : SocketModel)
    (i : Nat) (h : (st.routes i).isSome = true) :
    (((st.setRoute id s).routes i).isSome) = true := by
  simp only [AdapterState.setRoute]
  by_cases hi : i = id <;> simp [hi, h]

theorem onPacketHost_route_mono (st : AdapterState) (p : Packet) (i : Nat)
    (h : (st.routes i).isSome = true) :
    (((onPacketHost st p).1).routes i).isSome = true := by
  rcases hr : st.routes p.socketID with _ | s
  · by_cases hc : p.type = TypeClose
    · simpa [onPacketHost, deliver, hr, hc] using h
    · simp only [onPacketHost, deliver, registerOrGet, startLifecycle,
        AdapterState.setRoute, hr, hc, inboxCap]
      by_cases hi : i = p.socketID <;> simp [hi, h]
  · by_cases hlen : s.inbox.length < inboxCap
    · simp only [onPacketHost, deliver, AdapterState.setRoute, hr, hlen,
        if_pos, if_true]
      by_cases hi : i = p.socketID <;> simp [hi, h]
    · simpa [onPacketHost, deliver, hr, hlen] using h

theorem onPacketHost_events_of_some (st : AdapterState) (p : Packet)
    (s : SocketModel) (h : st.routes p.socketID = some s) :
    (onPacketHost st p).2 = [HostEvent.delivered p.socketID p] ∨
    (onPacketHost st p).2 = [HostEvent.droppedInboxFull p.socketID] := by
  by_cases hlen : s.inbox.length < inboxCap
  · exact Or.inl (by simp [onPacketHost, deliver, h, hlen])
  · exact Or.inr (by simp [onPacketHost, deliver, h, hlen])

theorem onPacketHost_unknown_close (st : AdapterState) (p : Packet)
    (hnone : st.routes p.socketID = none) (hc : p.type = TypeClose) :
    onPacketHost st p = (st, []) := by
  simp [onPacketHost, deliver, hnone, hc]

theorem onPacketHost_unknown_create (st : AdapterState) (p : Packet)
    (hnone : st.routes p.socketID = none) (hc : p.type ≠ TypeClose) :
    (onPacketHost st p).1.routes p.socketID
        = some { id := p.socketID, inbox := [p], started := true } ∧
    (onPacketHost st p).2
        = [HostEvent.socketCreated p.socketID,
            HostEvent.lifecycleStarted p.socketID,
            HostEvent.delivered p.socketID p] := by
  constructor <;>
    simp [onPacketHost, deliver, registerOrGet, startLifecycle,
      AdapterState.setRoute, hnone, hc, inboxCap]

theorem processPackets_created_zero (i : Nat) (pkts : List Packet) :
    ∀ st : AdapterState, (∀ p ∈ pkts, p.socketID = i) →
      (st.routes i).isSome = true →
      (processPackets st pkts).2.count (HostEvent.socketCreated i) = 0 := by
  induction pkts with
  | nil => intro st _ _; rfl
  | cons p ps ih =>
    intro st hall hsome
    have hp : p.socketID = i := hall p (List.mem_cons_self p ps)
    have hsome2 : (st.routes p.socketID).isSome = true := by rwa [hp]
    rcases Option.isSome_iff_exists.mp hsome2 with ⟨s, hs⟩
    have hev := onPacketHost_events_of_some st p s hs
    have hrest := ih (onPacketHost st p).1
      (fun q hq => hall q (List.mem_cons_of_mem p hq))
      (onPacketHost_route_mono st p i hsome)
    simp only [processPackets, List.count_append]
    rcases hev with hev | hev <;> rw [hev] <;>
      simp [List.count_cons, hrest, processPackets]

theorem processPackets_created_le_one (i : Nat) (pkts : List Packet) :
    ∀ st : AdapterState, (∀ p ∈ pkts, p.socketID = i) →
      st.routes i = none →
      (processPackets st pkts).2.count (HostEvent.socketCreated i) ≤ 1 := by
  induction pkts with
  | nil => intro st _ _; simp [processPackets]
  | cons p ps ih =>
    intro st hall hnone
    have hp : p.socketID = i := hall p (List.mem_cons_self p ps)
    have hnone2 : st.routes p.socketID = none := by rwa [hp]
    by_cases hc : p.type = TypeClose
    · have h1 := onPacketHost_unknown_close st p hnone2 hc
      simp only [processPackets, List.count_append, h1]
      simpa using ih st (fun q hq => hall q (List.mem_cons_of_mem p hq)) hnone
    · have h1 := onPacketHost_unknown_create st p hnone2 hc
      have hsome : ((onPacketHost st p).1.routes i).isSome = true := by
        rw [← hp, h1.1]
        rfl
      have hrest := processPackets_created_zero i ps (onPacketHost st p).1
        (fun q hq => hall q (List.mem_cons_of_mem p hq)) hsome
      simp only [processPackets, List.count_append, h1.2, hrest]
      simp [List.count_cons, hp]

/-- C4: an inbound packet whose `SocketID` has no route-table entry is
dropped when it is a CLOSE (no socket created, table unchanged);
otherwise exactly one socket is created and inserted, the host lifecycle
is started, and the triggering packet lands in the new socket's inbox —
and across any burst of packets for that unknown `SocketID`, at most one
socket-creation happens. -/
theorem c4_host_unknown_socket (st : AdapterState) (pkt : Packet)
    (hnone : st.routes pkt.socketID = none) :
    (pkt.type = TypeClose → onPacketHost st pkt = (st, [])) ∧
    (pkt.type ≠ TypeClose →
      (onPacketHost st pkt).1.routes pkt.socketID
          = some { id := pkt.socketID, inbox := [pkt], started := true } ∧
      (onPacketHost st pkt).2
          = [HostEvent.socketCreated pkt.socketID,
              HostEvent.lifecycleStarted pkt.socketID,
              HostEvent.delivered pkt.socketID pkt]) ∧
    (∀ pkts : List Packet, (∀ p ∈ pkts, p.socketID = pkt.socketID) →
      (processPackets st pkts).2.count (HostEvent.socketCreated pkt.socketID) ≤ 1) := by
  refine ⟨?_, ?_, ?_⟩
  · intro hc
    exact onPacketHost_unknown_close st pkt hnone hc
  · intro hc
    exact onPacketHost_unknown_create st pkt hnone hc
  · intro pkts hall
    exact processPackets_created_le_one pkt.socketID pkts st hall hnone

/-- Witness for C4: a stale CLOSE for an unknown socket is dropped. -/
theorem c4_host_unknown_socket_witness :
    onPacketHost { routes := fun _ => none }
        { type := TypeClose, socketID := 3, seqNum := 1, payload := [] }
      = ({ routes := fun _ => none }, []) :=
  (c4_host_unknown_socket { routes := fun _ => none }
    { type := TypeClose, socketID := 3, seqNum := 1, payload := [] } rfl).1 rfl

/-! ## Theorems: reassembler end-to-end delivery -/

/-- C1 is refuted: the interaction sequence `c1CounterOps` pushes every
SeqNum of 1..3 at least once (with one duplicate of SeqNum 2, pushed while
2 was still at or above `expectedSeq`) and ends in `Drain` calls, yet the
concatenated `Drain` output is the packets with SeqNums 1, 2 — the
duplicate of 2 wedges the heap root below `expectedSeq`, so SeqNum 3 is
never delivered. -/
theorem c1_counterexample :
    ((pushedPackets c1CounterOps).map Packet.seqNum = [2, 2, 1, 3]) ∧
    (∀ k ∈ List.range' 1 3, k ∈ (pushedPackets c1CounterOps).map Packet.seqNum) ∧
    (∀ p ∈ pushedPackets c1CounterOps, 1 ≤ p.seqNum ∧ p.seqNum ≤ 3) ∧
    c1CounterOps.getLast? = some ROp.drain ∧
    (runOps c1CounterOps NewReassembler).2.map Packet.seqNum = [1, 2] ∧
    (runOps c1CounterOps NewReassembler).2.map Packet.seqNum ≠ [1, 2, 3] := by
  decide

theorem heapPush_perm (p : Packet) (l : List Packet) :
    (heapPush p l).Perm (p :: l) := by
  induction l with
  | nil => simp [heapPush]
  | cons q qs ih =>
    simp only [heapPush]
    split
    · exact List.Perm.refl _
    · exact (ih.cons q).trans (List.Perm.swap p q qs)

theorem heapPush_sorted (p : Packet) (l : List Packet)
    (h : l.Pairwise (fun a b => a.seqNum ≤ b.seqNum)) :
    (heapPush p l).Pairwise (fun a b => a.seqNum ≤ b.seqNum) := by
  induction l with
  | nil => simp [heapPush]
  | cons q qs ih =>
    rcases List.pairwise_cons.mp h with ⟨hq, hqs⟩
    simp only [heapPush]
    split
    next hlt =>
      refine List.pairwise_cons.mpr ⟨?_, h⟩
      intro b hb
      rcases List.mem_cons.mp hb with hb | hb
      · subst hb
        omega
      · exact le_trans (le_of_lt hlt) (hq b hb)
    next hge =>
      refine List.pairwise_cons.mpr ⟨?_, ih hqs⟩
      intro b hb
      rcases List.mem_cons.mp ((heapPush_perm p qs).mem_iff.mp hb) with hb | hb
      · subst hb
        omega
      · exact hq b hb

theorem drainGo_shape (e : Nat) (buf : List Packet) :
    ∃ m, (drainGo e buf).1 = buf.take m ∧ (drainGo e buf).2.2 = buf.drop m := by
  induction buf generalizing e with
  | nil => exact ⟨0, rfl, rfl⟩
  | cons p rest ih =>
    by_cases hpe : p.seqNum = e
    · rcases ih ((e + 1) % U32) with ⟨m, h1, h2⟩
      refine ⟨m + 1, ?_, ?_⟩ <;>
        simp [drainGo, hpe, h1, h2]
    · exact ⟨0, by simp [drainGo, hpe], by simp [drainGo, hpe]⟩

theorem drainGo_spec (buf : List Packet) : ∀ e : Nat,
    (∀ p ∈ buf, p.seqNum + 1 < U32) →
    ∃ m, m ≤ buf.length ∧
      drainGo e buf = (buf.take m, e + m, buf.drop m) ∧
      (buf.take m).map Packet.seqNum = List.range' e m ∧
      (∀ p, (buf.drop m).head? = some p → p.seqNum ≠ e + m) := by
  induction buf with
  | nil =>
    intro e _
    exact ⟨0, by simp [drainGo], by simp [drainGo], by simp, by simp⟩
  | cons p rest ih =>
    intro e hb
    by_cases hpe : p.seqNum = e
    · have hb1 := hb p (List.mem_cons_self p rest)
      have he1 : (e + 1) % U32 = e + 1 := Nat.mod_eq_of_lt (by omega)
      rcases ih (e + 1) (fun q hq => hb q (List.mem_cons_of_mem p hq)) with
        ⟨m, hm, heq, hseq, hhead⟩
      refine ⟨m + 1, by simp; omega, ?_, ?_, ?_⟩
      · simp only [drainGo, hpe, if_pos, he1, heq]
        simp [Nat.add_assoc, Nat.add_comm 1 m]
      · simp only [List.take_succ_cons, List.map_cons, hseq, hpe]
        rfl
      · intro q hq
        have := hhead q (by simpa using hq)
        omega
    · refine ⟨0, by simp, ?_, by simp, ?_⟩
      · simp [drainGo, hpe]
      · intro q hq
        simp only [List.drop_zero, List.head?_cons, Option.some.injEq] at hq
        subst hq
        omega

theorem runOps_append (l1 l2 : List ROp) : ∀ r : Reassembler,
    runOps (l1 ++ l2) r
      = ((runOps l2 (runOps l1 r).1).1,
          (runOps l1 r).2 ++ (runOps l2 (runOps l1 r).1).2) := by
  induction l1 with
  | nil => intro r; simp [runOps]
  | cons op l1 ih =>
    intro r
    cases op with
    | push p => simpa [runOps] using ih (r.Push p).1
    | drain => simp [runOps, ih r.Drain.1]

theorem acceptedSeqs_append (l1 l2 : List ROp) : ∀ r : Reassembler,
    acceptedSeqs (l1 ++ l2) r
      = acceptedSeqs l1 r ++ acceptedSeqs l2 (runOps l1 r).1 := by
  induction l1 with
  | nil => intro r; simp [acceptedSeqs, runOps]
  | cons op l1 ih =>
    intro r
    cases op with
    | push p =>
      by_cases hlt : p.seqNum < r.expectedSeq
      · have hid : (r.Push p).1 = r := by simp [Reassembler.Push, hlt]
        simp [acceptedSeqs, hlt, runOps, hid, ih]
      · simp [acceptedSeqs, hlt, runOps, ih]
    | drain => simp [acceptedSeqs, runOps, ih]

theorem pushedPackets_append (l1 l2 : List ROp) :
    pushedPackets (l1 ++ l2) = pushedPackets l1 ++ pushedPackets l2 := by
  simp [pushedPackets]

theorem range1_append (s d m : Nat) :
    List.range' s d ++ List.range' (s + d) m = List.range' s (d + m) := by
  induction d generalizing s with
  | zero => simp
  | succ d ih =>
    have h1 : s + (d + 1) = (s + 1) + d := by omega
    have h2 : d + 1 + m = (d + m) + 1 := by omega
    simp only [List.range'_succ, List.cons_append, h1, h2, ih (s + 1)]

theorem pushedPackets_cons_push (p : Packet) (ops : List ROp) :
    pushedPackets (ROp.push p :: ops) = p :: pushedPackets ops := by
  simp [pushedPackets]

theorem pushedPackets_cons_drain (ops : List ROp) :
    pushedPackets (ROp.drain :: ops) = pushedPackets ops := by
  simp [pushedPackets]

theorem drain_step_inv (N : Nat) (r : Reassembler) (out : List Packet)
    (A : List Nat) (hInv : ReasmInv N r out A) (hN : N + 1 < U32) :
    ReasmInv N r.Drain.1 (out ++ r.Drain.2) A := by
  have hbnd : ∀ p ∈ r.buffer, p.seqNum + 1 < U32 := by
    intro p hp
    have hmem : p.seqNum ∈ A := by
      refine hInv.perm.mem_iff.mpr ?_
      exact List.mem_append.mpr (Or.inr (List.mem_map.mpr ⟨p, hp, rfl⟩))
    have := hInv.bounds _ hmem
    omega
  rcases drainGo_spec r.buffer r.expectedSeq hbnd with ⟨m, hm, heq, hseq, hhead⟩
  have h1 : r.Drain.1.buffer = r.buffer.drop m := by
    simp [Reassembler.Drain, heq]
  have h2 : r.Drain.1.expectedSeq = r.expectedSeq + m := by
    simp [Reassembler.Drain, heq]
  have h3 : r.Drain.2 = r.buffer.take m := by
    simp [Reassembler.Drain, heq]
  have hd := hInv.expSeq
  have hlen2 : (out ++ r.Drain.2).length = out.length + m := by
    rw [h3]
    simp [List.length_take, Nat.min_eq_left hm]
  have htakeSeq : (r.buffer.take m).map Packet.seqNum
      = List.range' (out.length + 1) m := by
    rw [hseq, hd]
  have houtLen : out.length + m ≤ N := by
    cases m with
    | zero => simpa using hInv.outLen
    | succ m0 =>
      have hmem : out.length + (m0 + 1) ∈ (r.buffer.take (m0 + 1)).map Packet.seqNum := by
        rw [htakeSeq]
        refine List.mem_range'_1.mpr ⟨by omega, by omega⟩
      rcases List.mem_map.mp hmem with ⟨p, hp, hps⟩
      have hpbuf : p ∈ r.buffer := List.mem_of_mem_take hp
      have hmemA : p.seqNum ∈ A := by
        refine hInv.perm.mem_iff.mpr ?_
        exact List.mem_append.mpr (Or.inr (List.mem_map.mpr ⟨p, hpbuf, rfl⟩))
      have := hInv.bounds _ hmemA
      omega
  refine ⟨?_, ?_, ?_, ?_, ?_, hInv.bounds⟩
  · rw [List.map_append, hInv.outSeqs, h3, htakeSeq]
    have hlen3 : (out ++ List.take m r.buffer).length = out.length + m := by
      simp [List.length_take, Nat.min_eq_left hm]
    rw [hlen3]
    have := range1_append 1 out.length m
    rw [show 1 + out.length = out.length + 1 by omega] at this
    exact this
  · rw [h2, hd, hlen2]
    omega
  · rw [hlen2]
    exact houtLen
  · rw [h1]
    exact List.Pairwise.sublist (List.drop_sublist _ _) hInv.sorted
  · have hsplit : out.map Packet.seqNum ++ r.buffer.map Packet.seqNum
        = (out ++ r.Drain.2).map Packet.seqNum
          ++ (r.Drain.1.buffer).map Packet.seqNum := by
      rw [h1, h3]
      conv_lhs => rw [← List.take_append_drop m r.buffer]
      simp [List.map_append, List.append_assoc]
    rw [← hsplit]
    exact hInv.perm

theorem runOps_inv (N : Nat) (hN : N + 1 < U32) (ops : List ROp) :
    ∀ r out A, ReasmInv N r out A →
      (A ++ acceptedSeqs ops r).Nodup →
      (∀ p ∈ pushedPackets ops, 1 ≤ p.seqNum ∧ p.seqNum ≤ N) →
      ReasmInv N (runOps ops r).1 (out ++ (runOps ops r).2)
          (A ++ acceptedSeqs ops r) ∧
      (∀ p ∈ pushedPackets ops,
        p.seqNum ∈ A ++ acceptedSeqs ops r ∨
        p.seqNum < (runOps ops r).1.expectedSeq) := by
  induction ops with
  | nil =>
    intro r out A hInv hND hrange
    constructor
    · simpa [runOps, acceptedSeqs] using hInv
    · simp [pushedPackets]
  | cons op rest ih =>
    intro r out A hInv hND hrange
    cases op with
    | push p =>
      by_cases hlt : p.seqNum < r.expectedSeq
      · have hid : (r.Push p).1 = r := by simp [Reassembler.Push, hlt]
        have hacc : acceptedSeqs (ROp.push p :: rest) r = acceptedSeqs rest r := by
          simp [acceptedSeqs, hlt]
        have hrun1 : runOps (ROp.push p :: rest) r = runOps rest r := by
          simp [runOps, hid]
        have hrest := ih r out A hInv (by rwa [hacc] at hND)
          (fun q hq => hrange q
            (by rw [pushedPackets_cons_push]; exact List.mem_cons_of_mem _ hq))
        rw [hrun1, hacc]
        refine ⟨hrest.1, ?_⟩
        intro q hq
        rw [pushedPackets_cons_push] at hq
        rcases List.mem_cons.mp hq with hq | hq
        · subst hq
          right
          have hfin := hrest.1.expSeq
          have hexp := hInv.expSeq
          have hlen : out.length ≤ (out ++ (runOps rest r).2).length := by simp
          omega
        · exact hrest.2 q hq
      · have hbuf : (r.Push p).1.buffer = heapPush p r.buffer := by
          simp [Reassembler.Push, hlt]
        have hexp : (r.Push p).1.expectedSeq = r.expectedSeq := by
          simp [Reassembler.Push, hlt]
        have hacc : acceptedSeqs (ROp.push p :: rest) r
            = p.seqNum :: acceptedSeqs rest (r.Push p).1 := by
          simp [acceptedSeqs, hlt]
        have hrun : runOps (ROp.push p :: rest) r = runOps rest (r.Push p).1 := by
          simp [runOps]
        have hpbounds : 1 ≤ p.seqNum ∧ p.seqNum ≤ N :=
          hrange p (by rw [pushedPackets_cons_push]; exact List.mem_cons_self _ _)
        have hInv2 : ReasmInv N (r.Push p).1 out (A ++ [p.seqNum]) := by
          refine ⟨hInv.outSeqs, by rw [hexp]; exact hInv.expSeq, hInv.outLen,
            ?_, ?_, ?_⟩
          · rw [hbuf]
            exact heapPush_sorted p r.buffer hInv.sorted
          · rw [hbuf]
            have hstep1 : (A ++ [p.seqNum]).Perm
                ((out.map Packet.seqNum ++ r.buffer.map Packet.seqNum)
                  ++ [p.seqNum]) := hInv.perm.append_right _
            have hstep2 : ((out.map Packet.seqNum ++ r.buffer.map Packet.seqNum)
                  ++ [p.seqNum]).Perm
                (out.map Packet.seqNum
                  ++ (p.seqNum :: r.buffer.map Packet.seqNum)) := by
              rw [List.append_assoc]
              exact List.Perm.append_left _ (List.perm_append_singleton _ _)
            have hstep3 : (out.map Packet.seqNum
                  ++ (p.seqNum :: r.buffer.map Packet.seqNum)).Perm
                (out.map Packet.seqNum
                  ++ (heapPush p r.buffer).map Packet.seqNum) := by
              refine List.Perm.append_left _ ?_
              have := (heapPush_perm p r.buffer).map Packet.seqNum
              exact this.symm
            exact (hstep1.trans hstep2).trans hstep3
          · intro s hs
            rcases List.mem_append.mp hs with hs | hs
            · exact hInv.bounds s hs
            · simp only [List.mem_singleton] at hs
              subst hs
              exact hpbounds
        have hAeq : (A ++ [p.seqNum]) ++ acceptedSeqs rest (r.Push p).1
            = A ++ (p.seqNum :: acceptedSeqs rest (r.Push p).1) := by
          rw [List.append_assoc, List.singleton_append]
        have hND2 : ((A ++ [p.seqNum]) ++ acceptedSeqs rest (r.Push p).1).Nodup := by
          rw [hAeq]
          rwa [hacc] at hND
        have hrest := ih (r.Push p).1 out (A ++ [p.seqNum]) hInv2 hND2
          (fun q hq => hrange q
            (by rw [pushedPackets_cons_push]; exact List.mem_cons_of_mem _ hq))
        rw [hrun, hacc]
        constructor
        · rw [← hAeq]
          exact hrest.1
        · intro q hq
          rw [pushedPackets_cons_push] at hq
          rcases List.mem_cons.mp hq with hq | hq
          · subst hq
            left
            rw [← hAeq]
            exact List.mem_append.mpr (Or.inl (by simp))
          · rcases hrest.2 q hq with h | h
            · left
              rw [← hAeq]
              exact h
            · right
              exact h
    | drain =>
      have hstep := drain_step_inv N r out A hInv hN
      have hacc : acceptedSeqs (ROp.drain :: rest) r
          = acceptedSeqs rest r.Drain.1 := by
        simp [acceptedSeqs]
      have hrun : runOps (ROp.drain :: rest) r
          = ((runOps rest r.Drain.1).1,
              r.Drain.2 ++ (runOps rest r.Drain.1).2) := by
        simp [runOps]
      have hrest := ih r.Drain.1 (out ++ r.Drain.2) A hstep
        (by rwa [hacc] at hND)
        (fun q hq => hrange q (by rwa [pushedPackets_cons_drain]))
      rw [hrun, hacc]
      constructor
      · have := hrest.1
        simpa [List.append_assoc] using this
      · intro q hq
        rw [pushedPackets_cons_drain] at hq
        exact hrest.2 q hq

theorem Drain_snd (r : Reassembler) :
    r.Drain.2 = (drainGo r.expectedSeq r.buffer).1 := rfl

theorem Drain_buffer (r : Reassembler) :
    r.Drain.1.buffer = (drainGo r.expectedSeq r.buffer).2.2 := rfl

theorem runOps_mem (ops : List ROp) : ∀ r : Reassembler,
    (∀ q ∈ (runOps ops r).2, q ∈ r.buffer ∨ q ∈ pushedPackets ops) ∧
    (∀ q ∈ (runOps ops r).1.buffer, q ∈ r.buffer ∨ q ∈ pushedPackets ops) := by
  induction ops with
  | nil =>
    intro r
    constructor
    · simp [runOps]
    · intro q hq
      exact Or.inl (by simpa [runOps] using hq)
  | cons op rest ih =>
    intro r
    cases op with
    | push p =>
      have hsub : ∀ q, q ∈ (r.Push p).1.buffer → q ∈ r.buffer ∨ q = p := by
        intro q hq
        by_cases hlt : p.seqNum < r.expectedSeq
        · rw [show (r.Push p).1 = r by simp [Reassembler.Push, hlt]] at hq
          exact Or.inl hq
        · rw [show (r.Push p).1.buffer = heapPush p r.buffer by
            simp [Reassembler.Push, hlt]] at hq
          rcases List.mem_cons.mp ((heapPush_perm p r.buffer).mem_iff.mp hq) with
            h | h
          · exact Or.inr h
          · exact Or.inl h
      have hrun : runOps (ROp.push p :: rest) r = runOps rest (r.Push p).1 := by
        simp [runOps]
      constructor
      · intro q hq
        rw [hrun] at hq
        rcases (ih (r.Push p).1).1 q hq with h | h
        · rcases hsub q h with h2 | h2
          · exact Or.inl h2
          · exact Or.inr (by rw [pushedPackets_cons_push, h2]; exact
              List.mem_cons_self _ _)
        · exact Or.inr (by rw [pushedPackets_cons_push]; exact
            List.mem_cons_of_mem _ h)
      · intro q hq
        rw [hrun] at hq
        rcases (ih (r.Push p).1).2 q hq with h | h
        · rcases hsub q h with h2 | h2
          · exact Or.inl h2
          · exact Or.inr (by rw [pushedPackets_cons_push, h2]; exact
              List.mem_cons_self _ _)
        · exact Or.inr (by rw [pushedPackets_cons_push]; exact
            List.mem_cons_of_mem _ h)
    | drain =>
      rcases drainGo_shape r.expectedSeq r.buffer with ⟨m, hs1, hs2⟩
      have hdsub : ∀ q, q ∈ r.Drain.2 → q ∈ r.buffer := by
        intro q hq
        rw [Drain_snd, hs1] at hq
        exact List.mem_of_mem_take hq
      have hbsub : ∀ q, q ∈ r.Drain.1.buffer → q ∈ r.buffer := by
        intro q hq
        rw [Drain_buffer, hs2] at hq
        exact List.mem_of_mem_drop hq
      have hrun : runOps (ROp.drain :: rest) r
          = ((runOps rest r.Drain.1).1,
              r.Drain.2 ++ (runOps rest r.Drain.1).2) := by
        simp [runOps]
      constructor
      · intro q hq
        rw [hrun] at hq
        rcases List.mem_append.mp hq with h | h
        · exact Or.inl (hdsub q h)
        · rcases (ih r.Drain.1).1 q h with h2 | h2
          · exact Or.inl (hbsub q h2)
          · exact Or.inr (by rwa [pushedPackets_cons_drain])
      · intro q hq
        rw [hrun] at hq
        rcases (ih r.Drain.1).2 q hq with h2 | h2
        · exact Or.inl (hbsub q h2)
        · exact Or.inr (by rwa [pushedPackets_cons_drain])

/-- C1 (amended): for every interaction sequence whose pushes carry
SeqNums in 1..N (N + 1 below 2^32), cover every SeqNum 1..N at least
once, and contain no duplicate SeqNum pushed while still at or above the
current `expectedSeq` (late duplicates, below `expectedSeq`, are allowed
and discarded), and which ends with a `Drain` call: the concatenation of
the lists returned by all `Drain` calls is exactly packets with SeqNums
1, 2, ..., N in that order, each SeqNum delivered exactly once, every
delivered packet being one of the pushed packets. -/
theorem c1_reassembler_inorder (N : Nat) (ops : List ROp)
    (hN : N + 1 < U32)
    (hdup : (acceptedSeqs ops NewReassembler).Nodup)
    (hrange : ∀ p ∈ pushedPackets ops, 1 ≤ p.seqNum ∧ p.seqNum ≤ N)
    (hall : ∀ k ∈ List.range' 1 N, k ∈ (pushedPackets ops).map Packet.seqNum)
    (hlast : ops.getLast? = some ROp.drain) :
    (runOps ops NewReassembler).2.map Packet.seqNum = List.range' 1 N ∧
    (∀ q ∈ (runOps ops NewReassembler).2, q ∈ pushedPackets ops) := by
  have hne : ops ≠ [] := by
    intro h
    rw [h] at hlast
    simp at hlast
  obtain ⟨l1, hops⟩ : ∃ l1, ops = l1 ++ [ROp.drain] := by
    refine ⟨ops.dropLast, ?_⟩
    have h1 := List.dropLast_append_getLast hne
    have h2 : ops.getLast hne = ROp.drain := by
      rw [List.getLast?_eq_getLast ops hne] at hlast
      exact Option.some.inj hlast
    rw [← h2]
    exact h1.symm
  subst hops
  have hmemconc : ∀ q ∈ (runOps (l1 ++ [ROp.drain]) NewReassembler).2,
      q ∈ pushedPackets (l1 ++ [ROp.drain]) := by
    intro q hq
    rcases (runOps_mem (l1 ++ [ROp.drain]) NewReassembler).1 q hq with h | h
    · exact absurd (show q ∈ ([] : List Packet) from h) (List.not_mem_nil q)
    · exact h
  have hpush1 : pushedPackets (l1 ++ [ROp.drain]) = pushedPackets l1 := by
    rw [pushedPackets_append]
    simp [pushedPackets]
  have haccsplit : acceptedSeqs (l1 ++ [ROp.drain]) NewReassembler
      = acceptedSeqs l1 NewReassembler := by
    rw [acceptedSeqs_append]
    simp [acceptedSeqs]
  have hInv0 : ReasmInv N NewReassembler [] [] := by
    refine ⟨rfl, rfl, Nat.zero_le N, List.Pairwise.nil,
      by simp [NewReassembler], by simp⟩
  have hdup1 : (([] : List Nat) ++ acceptedSeqs l1 NewReassembler).Nodup := by
    rw [haccsplit] at hdup
    simpa using hdup
  have hrange1 : ∀ p ∈ pushedPackets l1, 1 ≤ p.seqNum ∧ p.seqNum ≤ N := by
    intro p hp
    exact hrange p (by rw [hpush1]; exact hp)
  have hmain := runOps_inv N hN l1 NewReassembler [] [] hInv0 hdup1 hrange1
  have hInv1 : ReasmInv N (runOps l1 NewReassembler).1
      (runOps l1 NewReassembler).2 (acceptedSeqs l1 NewReassembler) := by
    have := hmain.1
    simpa using this
  set r1 := (runOps l1 NewReassembler).1 with hr1
  set o1 := (runOps l1 NewReassembler).2 with ho1
  set A := acceptedSeqs l1 NewReassembler with hA
  have h12 : runOps (l1 ++ [ROp.drain]) NewReassembler
      = (r1.Drain.1, o1 ++ r1.Drain.2) := by
    rw [runOps_append]
    simp [runOps]
  have hstep := drain_step_inv N r1 o1 A hInv1 hN
  set out2 := o1 ++ r1.Drain.2 with hout2
  set d := out2.length with hd
  have hdN : d ≤ N := hstep.outLen
  have heq : d = N := by
    by_contra hne2
    have hdlt : d < N := by omega
    set k := d + 1 with hk
    have hkpush : k ∈ (pushedPackets (l1 ++ [ROp.drain])).map Packet.seqNum :=
      hall k (List.mem_range'_1.mpr ⟨by omega, by omega⟩)
    rw [hpush1] at hkpush
    rcases List.mem_map.mp hkpush with ⟨p, hp, hps⟩
    have hkA : k ∈ A := by
      rcases hmain.2 p hp with h | h
      · rw [hps] at h
        simpa using h
      · exfalso
        have he1 : r1.expectedSeq = o1.length + 1 := hInv1.expSeq
        have hlen : o1.length ≤ d := by
          rw [hd, hout2]
          simp
        rw [hps] at h
        omega
    have hkloc := hstep.perm.mem_iff.mp hkA
    have hkout : k ∉ out2.map Packet.seqNum := by
      rw [hstep.outSeqs]
      intro hmem
      have := List.mem_range'_1.mp hmem
      omega
    have hkbuf : k ∈ (r1.Drain.1.buffer).map Packet.seqNum := by
      rcases List.mem_append.mp hkloc with h | h
      · exact absurd h hkout
      · exact h
    have hNDA : A.Nodup := by simpa using hdup1
    have hNDsplit : (out2.map Packet.seqNum
        ++ (r1.Drain.1.buffer).map Packet.seqNum).Nodup :=
      hstep.perm.nodup hNDA
    have hdisj := List.nodup_append.mp hNDsplit
    have hbig : ∀ s ∈ (r1.Drain.1.buffer).map Packet.seqNum, d + 1 ≤ s := by
      intro s hs
      have hsA : s ∈ A := hstep.perm.mem_iff.mpr (List.mem_append.mpr (Or.inr hs))
      have hb := hstep.bounds s hsA
      have hnot : s ∉ out2.map Packet.seqNum := by
        intro hmem
        exact (List.disjoint_right.mp hdisj.2.2 hs) hmem
      rw [hstep.outSeqs] at hnot
      by_contra hlt2
      exact hnot (List.mem_range'_1.mpr ⟨by omega, by omega⟩)
    have hbnd1 : ∀ p ∈ r1.buffer, p.seqNum + 1 < U32 := by
      intro q hq
      have hmem : q.seqNum ∈ A := by
        refine hInv1.perm.mem_iff.mpr ?_
        exact List.mem_append.mpr (Or.inr (List.mem_map.mpr ⟨q, hq, rfl⟩))
      have := hInv1.bounds _ hmem
      omega
    rcases drainGo_spec r1.buffer r1.expectedSeq hbnd1 with
      ⟨m, hm, hgo, hseq, hhead⟩
    have hb2 : r1.Drain.1.buffer = r1.buffer.drop m := by
      rw [Drain_buffer, hgo]
    have he2 : r1.Drain.1.expectedSeq = r1.expectedSeq + m := by
      have : r1.Drain.1.expectedSeq = (drainGo r1.expectedSeq r1.buffer).2.1 := rfl
      rw [this, hgo]
    have hek : r1.Drain.1.expectedSeq = k := by
      rw [hstep.expSeq]
    rcases List.exists_cons_of_ne_nil
        (show r1.Drain.1.buffer ≠ [] by
          intro h0
          rw [h0] at hkbuf
          simp at hkbuf) with ⟨h0, t, hcons⟩
    have hh0 : h0.seqNum ≠ r1.expectedSeq + m := by
      refine hhead h0 ?_
      rw [← hb2, hcons]
      rfl
    have hh0k : h0.seqNum = k := by
      have hle : h0.seqNum ≤ k := by
        rcases List.mem_cons.mp (by rwa [hcons, List.map_cons] at hkbuf) with
          h | h
        · omega
        · have hsort := hstep.sorted
          rw [hcons] at hsort
          rcases List.mem_map.mp h with ⟨q, hqt, hqs⟩
          have := (List.pairwise_cons.mp hsort).1 q hqt
          omega
      have hge : d + 1 ≤ h0.seqNum := by
        refine hbig h0.seqNum ?_
        rw [hcons, List.map_cons]
        exact List.mem_cons_self _ _
      omega
    rw [← hek, he2] at hh0k
    exact hh0 hh0k
  constructor
  · rw [h12]
    show List.map Packet.seqNum out2 = List.range' 1 N
    rw [hstep.outSeqs, ← hd, heq]
  · exact hmemconc

/-- Witness for the amended C1 at a concrete out-of-order run. -/
theorem c1_reassembler_inorder_witness :
    (runOps [ROp.push { type := 2, socketID := 1, seqNum := 2, payload := [] },
        ROp.push { type := 2, socketID := 1, seqNum := 1, payload := [] },
        ROp.drain] NewReassembler).2.map Packet.seqNum = List.range' 1 2 ∧
    (∀ q ∈ (runOps [ROp.push { type := 2, socketID := 1, seqNum := 2, payload := [] },
        ROp.push { type := 2, socketID := 1, seqNum := 1, payload := [] },
        ROp.drain] NewReassembler).2,
      q ∈ pushedPackets [ROp.push { type := 2, socketID := 1, seqNum := 2, payload := [] },
        ROp.push { type := 2, socketID := 1, seqNum := 1, payload := [] },
        ROp.drain]) :=
  c1_reassembler_inorder 2 _ (by decide) (by decide) (by decide) (by decide)
    (by decide)

end Roj1
